import Mathlib

/-!
Verification of the rss_reader ingestion-and-summarization pipeline.

The Python sources (`rss_reader.py`, `ai_summarizer.py`, `content_extractor.py`)
are shallowly embedded below.  External effects (HTTP fetches, the remote
summarization providers, HTML parsing libraries, the filesystem) are modelled
as explicit environment records whose fields carry the observable outcome of
each external call; the control flow around them is translated line by line.
Machine peculiarities kept from Python: string truthiness (`None`/`""` are
falsy), `str.split` on a non-empty separator (embedded as `pySplit`, a
left-to-right scan breaking at each non-overlapping occurrence), stable
`list.sort` (modelled with `List.mergeSort`), and floor division.  `datetime` values are modelled as a wall-clock integer plus
an optional UTC-offset (`none` = naive); timestamps that survive
normalization carry offset `some 0` and compare totally, so the
exception branches guarding date comparisons are unreachable in the model.
-/

namespace RSSPipeline

/-- Python truthiness of an `Optional[str]`: `None` and `""` are falsy. -/
def pyTruthy : Option String → Bool
  | none => false
  | some s => decide (s ≠ "")

/-! ## Summarizer (`ai_summarizer.py`) -/

/-- Tag of the provider that produced an accepted summary
(`method_used` in `AISummarizer.summarize_article`). -/
inductive SummaryMethod where
  | huggingface
  | openai
  | extractive
deriving DecidableEq, Repr

/-- The dict returned by `AISummarizer.summarize_article`. -/
structure SummaryResult where
  summary : Option String
  method : Option SummaryMethod
  original_length : Nat
  summary_length : Nat
deriving DecidableEq, Repr

/-- Environment of `AISummarizer`: whether each remote client is configured
(`self.hf_client` / `self.openai_client` non-`None`), and the observable
outcome of calling each remote provider on given input (`none` models an
exception or a `None` return; `some s` a returned string, possibly empty). -/
structure SummarizerEnv where
  hf_client : Bool
  hf_result : String → Option String
  openai_client : Bool
  openai_result : String → String → Option String

/-- Python `str.split(sep)` on character lists for a non-empty separator:
scan left to right, breaking at each non-overlapping occurrence of `sep`.
The fuel argument (instantiated with the input length) makes the recursion
structural; one character at least is consumed per step, so the fuel never
runs out on the inputs used. -/
def pySplitAux (sep : List Char) : Nat → List Char → List Char → List (List Char)
  | _, [], acc => [acc.reverse]
  | 0, l, acc => [acc.reverse ++ l]
  | fuel + 1, c :: rest, acc =>
    if sep.isPrefixOf (c :: rest) then
      acc.reverse :: pySplitAux sep fuel ((c :: rest).drop sep.length) []
    else
      pySplitAux sep fuel rest (c :: acc)

/-- Python `content.split(sep)` for a non-empty separator. -/
def pySplit (s sep : String) : List String :=
  (pySplitAux sep.data s.data.length s.data []).map String.mk

/-- `AISummarizer.extract_key_sentences`: split on `". "`; if the sentence
count is at most `num_sentences`, return the content unchanged, else join the
first, middle (floor-division index) and last sentence with `". "`. -/
def extract_key_sentences (content : String) (num_sentences : Nat) : String :=
  let sentences := pySplit content ". "
  if sentences.length ≤ num_sentences then content
  else
    String.intercalate ". "
      [sentences.headD "", sentences.getD (sentences.length / 2) "", sentences.getLastD ""]

/-- `AISummarizer.summarize_article`, translated statement by statement:
short-circuit on short content, then the Hugging Face attempt (only when the
client is configured), then the OpenAI attempt (only when the previous summary
is falsy and that client is configured), then the extractive fallback, with
`method_used` assigned exactly where the source assigns it. -/
def summarize_article (env : SummarizerEnv) (content : String) (title : String) :
    Option SummaryResult :=
  if content = "" ∨ content.length < 100 then none
  else
    let s1 : Option String := if env.hf_client then env.hf_result content else none
    let m1 : Option SummaryMethod :=
      if env.hf_client ∧ pyTruthy (env.hf_result content) then some .huggingface else none
    let s2 : Option String :=
      if ¬ pyTruthy s1 ∧ env.openai_client then env.openai_result content title else s1
    let m2 : Option SummaryMethod :=
      if ¬ pyTruthy s1 ∧ env.openai_client ∧ pyTruthy (env.openai_result content title)
      then some .openai else m1
    let s3 : Option String :=
      if ¬ pyTruthy s2 then some (extract_key_sentences content 3) else s2
    let m3 : Option SummaryMethod :=
      if ¬ pyTruthy s2 then some .extractive else m2
    some { summary := s3
           method := m3
           original_length := content.length
           summary_length := match s3 with | some s => s.length | none => 0 }

/-! ## Articles, deduplication and ranking (`rss_reader.py`) -/

/-- The article dict built by `RSSReader.fetch_feed`.  `published` is the
normalized UTC timestamp (an integer instant: every date leaving
`parse_date` is timezone-aware UTC, so instants compare totally). -/
structure Article where
  title : String
  link : String
  description : String
  published : Int
  source : String
  category : String
  guid : String
  feed_category : String
  feed_title : String
  author : String
  tags : List String
deriving DecidableEq, Repr

/-- Identity key used by `_remove_duplicates`:
`article.get('guid') or article.get('link', '')`. -/
def identifier (a : Article) : String :=
  if a.guid = "" then a.link else a.guid

/-- Loop body of `RSSReader._remove_duplicates`: keep an article when its
identifier is non-empty and not yet in `seen`. -/
def removeDupAux (seen : List String) : List Article → List Article
  | [] => []
  | a :: rest =>
    if identifier a ≠ "" ∧ identifier a ∉ seen then
      a :: removeDupAux (identifier a :: seen) rest
    else
      removeDupAux seen rest

/-- `RSSReader._remove_duplicates` with an initially empty `seen` set. -/
def remove_duplicates (articles : List Article) : List Article :=
  removeDupAux [] articles

/-- Comparison used by `sort(key=lambda x: x['published'], reverse=True)`:
descending by publication instant. -/
def publishedDesc (a b : Article) : Bool :=
  decide (b.published ≤ a.published)

/-- Stable sort newest-first, the model of Python's stable
`list.sort(key=..., reverse=True)`. -/
def sortByDateDesc (l : List Article) : List Article :=
  l.mergeSort publishedDesc

/-- Recency filter of `fetch_all_feeds`: keep articles with
`published > cutoff` (strict).  Instants compare totally, so the
fail-open `except` branch of the source never fires in the model. -/
def filter_recent (cutoff : Int) (articles : List Article) : List Article :=
  articles.filter (fun a => decide (cutoff < a.published))

/-- Per-feed cap of `fetch_all_feeds`: when the filtered feed exceeds
`max_articles_per_feed`, sort it newest-first and keep the head. -/
def cap_feed (max_articles_per_feed : Nat) (recent : List Article) : List Article :=
  if max_articles_per_feed < recent.length then
    (sortByDateDesc recent).take max_articles_per_feed
  else recent

/-- One feed's processing inside the `fetch_all_feeds` loop: filter by
recency, then cap. -/
def process_feed (cutoff : Int) (cap : Nat) (articles : List Article) : List Article :=
  cap_feed cap (filter_recent cutoff articles)

/-- `RSSReader.fetch_all_feeds` on already-fetched per-feed article lists:
process each feed, concatenate, deduplicate, and sort the result
newest-first (the sort's `except` branch is unreachable on total instants). -/
def fetch_all_feeds (feeds : List (List Article)) (cutoff : Int) (cap : Nat) :
    List Article :=
  let all_articles := (feeds.map (process_feed cutoff cap)).flatten
  let unique_articles := remove_duplicates all_articles
  sortByDateDesc unique_articles

/-! ## Date normalization (`rss_reader.py`) -/

/-- A Python `datetime`: wall-clock seconds plus an optional UTC offset in
seconds (`none` models a naive datetime, `tzinfo is None`).  The UTC instant
of an aware value is `wall - off`. -/
structure PyDatetime where
  wall : Int
  tz : Option Int
deriving DecidableEq, Repr

/-- `RSSReader.normalize_datetime`: `None` becomes now-in-UTC; a naive value
is stamped UTC with its wall clock unchanged (`replace(tzinfo=utc)`); an
aware value is converted to UTC (`astimezone(utc)` shifts the wall clock by
the offset). -/
def normalize_datetime (now : Int) : Option PyDatetime → PyDatetime
  | none => ⟨now, some 0⟩
  | some dt =>
    match dt.tz with
    | none => ⟨dt.wall, some 0⟩
    | some off => ⟨dt.wall - off, some 0⟩

/-- `RSSReader.parse_date`: an empty string yields now-in-UTC; otherwise the
five parsers (dateutil, RFC-2822 named zone, RFC-2822 numeric offset,
ISO-8601 with offset, ISO-8601 naive) are tried in order — each modelled as a
partial function whose `none` is the `except` branch — the first success is
normalized, and when every parser fails the result is now-in-UTC. -/
def parse_date (now : Int) (p1 p2 p3 p4 p5 : String → Option PyDatetime)
    (date_str : String) : PyDatetime :=
  if date_str = "" then ⟨now, some 0⟩
  else
    match p1 date_str with
    | some d => normalize_datetime now (some d)
    | none =>
      match p2 date_str with
      | some d => normalize_datetime now (some d)
      | none =>
        match p3 date_str with
        | some d => normalize_datetime now (some d)
        | none =>
          match p4 date_str with
          | some d => normalize_datetime now (some d)
          | none =>
            match p5 date_str with
            | some d => normalize_datetime now (some d)
            | none => ⟨now, some 0⟩

/-! ## Content extraction (`content_extractor.py`) -/

/-- Observable content of one fetched page as `extract_with_bs4` sees it
after decomposing script/style/nav/footer/header/aside: the text of the first
element matching each CSS selector (`none` when `select_one` finds nothing),
and the joined text of all paragraph elements. -/
structure Bs4Page where
  selText : String → Option String
  paragraphs : String

/-- External world of `ContentExtractor`: per URL, the text produced by the
newspaper3k library (`none` models a download/parse exception or a `None`
text), and the parsed page for the BeautifulSoup path (`none` models a
request exception). -/
structure FetchWorld where
  newspaper : String → Option String
  bs4_page : String → Option Bs4Page

/-- The fixed selector chain `content_selectors` of `extract_with_bs4`. -/
def content_selectors : List String :=
  ["article", "[role=\"main\"]", ".article-content",
   ".post-content", ".entry-content", "main"]

/-- `ContentExtractor.extract_with_newspaper`: accept the library's text only
when it is truthy and longer than 100 characters. -/
def extract_with_newspaper (w : FetchWorld) (url : String) : Option String :=
  match w.newspaper url with
  | none => none
  | some t => if t ≠ "" ∧ 100 < t.length then some t else none

/-- `ContentExtractor.extract_with_bs4`: probe the selector chain in order and
return the first selector text longer than 200 characters; otherwise fall
back to the joined paragraph text if that is longer than 200 characters. -/
def extract_with_bs4 (w : FetchWorld) (url : String) : Option String :=
  match w.bs4_page url with
  | none => none
  | some page =>
    match content_selectors.findSome?
        (fun sel =>
          match page.selText sel with
          | some text => if 200 < text.length then some text else none
          | none => none) with
    | some text => some text
    | none => if 200 < page.paragraphs.length then some page.paragraphs else none

/-- `ContentExtractor.extract_content`: newspaper3k first, accepted when
truthy and longer than 200 characters; then the BeautifulSoup fallback under
the same acceptance test; otherwise `None`. -/
def extract_content (w : FetchWorld) (url : String) : Option String :=
  let c1 := extract_with_newspaper w url
  if pyTruthy c1 ∧ 200 < (c1.getD "").length then c1
  else
    let c2 := extract_with_bs4 w url
    if pyTruthy c2 ∧ 200 < (c2.getD "").length then c2
    else none

/-! ## Feed catalog serialization (`rss_reader.py`) -/

/-- A feed dict of the loaded catalog.  `url` is always present (feeds
without it cannot be exported: `feed['url']` raises); the remaining keys are
optional — JSON-loaded dicts may omit any of them, OPML-loaded dicts carry
all of them including `html_url` and `language`. -/
structure Feed where
  url : String
  title : Option String
  category : Option String
  description : Option String
  html_url : Option String
  language : Option String
deriving DecidableEq, Repr

/-- The dict written per feed by `RSSReader.export_feeds_to_json`: exactly
the keys `url`, `category` (default `"general"`), `title` (default `""`) and
`description` (default `""`); `html_url` and `language` are not written. -/
def exportFeed (f : Feed) : Feed :=
  { url := f.url
    category := some (f.category.getD "general")
    title := some (f.title.getD "")
    description := some (f.description.getD "")
    html_url := none
    language := none }

/-- `export_feeds_to_json` followed by `load_from_json` on the written file:
`json.dump`/`json.load` are mutually inverse on these finite string dicts, so
the reloaded list is exactly the list of exported dicts. -/
def export_then_load (feeds : List Feed) : List Feed :=
  feeds.map exportFeed

/-! ## Lemmas about `_remove_duplicates` -/

lemma mem_removeDupAux {seen : List String} {l : List Article} {a : Article}
    (h : a ∈ removeDupAux seen l) : identifier a ≠ "" ∧ identifier a ∉ seen := by
  induction l generalizing seen with
  | nil => simp [removeDupAux] at h
  | cons x rest ih =>
    simp only [removeDupAux] at h
    split at h
    · rename_i hx
      rcases List.mem_cons.mp h with h1 | h1
      · subst h1; exact hx
      · have h2 := ih h1
        exact ⟨h2.1, fun hmem => h2.2 (List.mem_cons_of_mem _ hmem)⟩
    · exact ih h

lemma removeDupAux_sublist (seen : List String) (l : List Article) :
    List.Sublist (removeDupAux seen l) l := by
  induction l generalizing seen with
  | nil => simp [removeDupAux]
  | cons x rest ih =>
    simp only [removeDupAux]
    split
    · exact List.Sublist.cons₂ x (ih _)
    · exact List.Sublist.cons x (ih _)

lemma removeDupAux_pairwise (seen : List String) (l : List Article) :
    (removeDupAux seen l).Pairwise (fun a b => identifier a ≠ identifier b) := by
  induction l generalizing seen with
  | nil => simp [removeDupAux]
  | cons x rest ih =>
    simp only [removeDupAux]
    split
    · refine List.Pairwise.cons ?_ (ih _)
      intro b hb hEq
      exact (mem_removeDupAux hb).2 (by rw [← hEq]; exact List.mem_cons_self _ _)
    · exact ih _

lemma key_covered {seen : List String} {l : List Article} {a : Article}
    (ha : a ∈ l) (hne : identifier a ≠ "") (hs : identifier a ∉ seen) :
    ∃ b ∈ removeDupAux seen l, identifier b = identifier a := by
  induction l generalizing seen with
  | nil => simp at ha
  | cons x rest ih =>
    simp only [removeDupAux]
    split
    · rename_i hx
      by_cases hEq : identifier x = identifier a
      · exact ⟨x, List.mem_cons_self _ _, hEq⟩
      · have h1 : a ∈ rest := by
          rcases List.mem_cons.mp ha with h1 | h1
          · exact absurd (h1 ▸ rfl) hEq
          · exact h1
        have hs2 : identifier a ∉ identifier x :: seen := by
          intro hmem
          rcases List.mem_cons.mp hmem with h2 | h2
          · exact hEq h2.symm
          · exact hs h2
        obtain ⟨b, hb, hbe⟩ := ih h1 hs2
        exact ⟨b, List.mem_cons_of_mem _ hb, hbe⟩
    · rename_i hx
      have h1 : a ∈ rest := by
        rcases List.mem_cons.mp ha with h1 | h1
        · subst h1; exact absurd ⟨hne, hs⟩ hx
        · exact h1
      exact ih h1 hs

lemma first_mem_removeDupAux {seen : List String} {l : List Article} {a : Article}
    (hf : l.find? (fun x => identifier x == identifier a) = some a)
    (hne : identifier a ≠ "") (hs : identifier a ∉ seen) :
    a ∈ removeDupAux seen l := by
  induction l generalizing seen with
  | nil => simp at hf
  | cons x rest ih =>
    cases hpx : (identifier x == identifier a) with
    | true =>
      simp only [List.find?, hpx] at hf
      have hxa : x = a := by injection hf
      subst hxa
      simp only [removeDupAux]
      rw [if_pos ⟨hne, hs⟩]
      exact List.mem_cons_self _ _
    | false =>
      simp only [List.find?, hpx] at hf
      have hne2 : identifier x ≠ identifier a := by
        intro hEq
        rw [hEq] at hpx
        simp at hpx
      simp only [removeDupAux]
      split
      · refine List.mem_cons_of_mem _ (ih hf ?_)
        intro hmem
        rcases List.mem_cons.mp hmem with h2 | h2
        · exact hne2 h2.symm
        · exact hs h2
      · exact ih hf hs

lemma removeDupAux_clean_append (d rest : List Article) (seen : List String)
    (h1 : ∀ a ∈ d, identifier a ≠ "")
    (h2 : d.Pairwise (fun a b => identifier a ≠ identifier b))
    (h3 : ∀ a ∈ d, identifier a ∉ seen) :
    removeDupAux seen (d ++ rest) =
      d ++ removeDupAux ((d.map identifier).reverse ++ seen) rest := by
  induction d generalizing seen with
  | nil => simp
  | cons a d ih =>
    simp only [List.cons_append, removeDupAux]
    rw [if_pos ⟨h1 a (List.mem_cons_self _ _), h3 a (List.mem_cons_self _ _)⟩]
    have ih2 := ih (identifier a :: seen)
          (fun b hb => h1 b (List.mem_cons_of_mem _ hb))
          (List.Pairwise.of_cons h2)
          (fun b hb hmem => by
            rcases List.mem_cons.mp hmem with h4 | h4
            · exact (List.rel_of_pairwise_cons h2 hb) h4.symm
            · exact h3 b (List.mem_cons_of_mem _ hb) h4)
    refine Eq.trans (congrArg (a :: ·) ih2) ?_
    simp [List.append_assoc]

lemma removeDupAux_all_seen (l : List Article) (seen : List String)
    (h : ∀ a ∈ l, identifier a ∈ seen) : removeDupAux seen l = [] := by
  induction l generalizing seen with
  | nil => rfl
  | cons x rest ih =>
    simp only [removeDupAux]
    rw [if_neg (fun hc => hc.2 (h x (List.mem_cons_self _ _)))]
    exact ih seen (fun a ha => h a (List.mem_cons_of_mem _ ha))

/-- C10: deduplication preserves relative order — the output of
`_remove_duplicates` is a subsequence of its input, so the kept articles stand
in the order they were encountered (the per-feed concatenation order, which is
also the order left in place should the final global sort fail). -/
theorem remove_duplicates_sublist (l : List Article) :
    List.Sublist (remove_duplicates l) l :=
  removeDupAux_sublist [] l

/-- C5: the identity key is `guid` when non-empty, else `link`; every kept
article has a non-empty key; kept keys are pairwise distinct (every later
article with an already-seen key is dropped); every non-empty key occurring
in the input survives, and the article kept for a key is the first one
encountered with that key; articles with `guid` and `link` both empty are
dropped; and two articles sharing a `link` but carrying distinct non-empty
`guid`s are both retained. -/
theorem remove_duplicates_key_spec (l : List Article) :
    (∀ a ∈ remove_duplicates l, identifier a ≠ "") ∧
    (remove_duplicates l).Pairwise (fun a b => identifier a ≠ identifier b) ∧
    (∀ a, a ∈ l → identifier a ≠ "" →
      ∃ b ∈ remove_duplicates l, identifier b = identifier a) ∧
    (∀ a, l.find? (fun x => identifier x == identifier a) = some a →
      identifier a ≠ "" → a ∈ remove_duplicates l) ∧
    (∀ a, a.guid = "" → a.link = "" → a ∉ remove_duplicates l) ∧
    (∀ a1 a2, a1.guid ≠ "" → a2.guid ≠ "" → a1.guid ≠ a2.guid →
      remove_duplicates [a1, a2] = [a1, a2]) := by
  refine ⟨fun a ha => (mem_removeDupAux ha).1,
          removeDupAux_pairwise [] l,
          fun a ha hne => key_covered ha hne (by simp),
          fun a hf hne => first_mem_removeDupAux hf hne (by simp),
          fun a hg hl hmem => (mem_removeDupAux hmem).1 (by simp [identifier, hg, hl]),
          fun a1 a2 hg1 hg2 hne => ?_⟩
  have hi1 : identifier a1 = a1.guid := by simp [identifier, hg1]
  have hi2 : identifier a2 = a2.guid := by simp [identifier, hg2]
  simp only [remove_duplicates, removeDupAux]
  rw [if_pos ⟨by rw [hi1]; exact hg1, by simp⟩]
  rw [if_pos ⟨by rw [hi2]; exact hg2, by
        simp only [List.mem_cons, List.not_mem_nil, or_false]
        rw [hi1, hi2]; exact fun h => hne h.symm⟩]

/-- C6: deduplication by identity key is idempotent — running
`_remove_duplicates` on an already-deduplicated list concatenated with itself
returns exactly that deduplicated list. -/
theorem remove_duplicates_idempotent (l : List Article) :
    remove_duplicates (remove_duplicates l ++ remove_duplicates l) =
      remove_duplicates l := by
  have h1 : ∀ a ∈ remove_duplicates l, identifier a ≠ "" :=
    fun a ha => (mem_removeDupAux ha).1
  have h2 := removeDupAux_pairwise ([] : List String) l
  rw [remove_duplicates,
      removeDupAux_clean_append (remove_duplicates l) (remove_duplicates l) []
        h1 h2 (by simp)]
  rw [removeDupAux_all_seen]
  · simp
  · intro a ha
    simp only [List.append_nil, List.mem_reverse, List.mem_map]
    exact ⟨a, ha, rfl⟩

/-! ## Lemmas about sorting and ranking -/

lemma publishedDesc_trans (a b c : Article)
    (h1 : publishedDesc a b = true) (h2 : publishedDesc b c = true) :
    publishedDesc a c = true := by
  simp only [publishedDesc, decide_eq_true_eq] at *
  exact le_trans h2 h1

lemma publishedDesc_total (a b : Article) :
    (publishedDesc a b || publishedDesc b a) = true := by
  simp only [publishedDesc, Bool.or_eq_true, decide_eq_true_eq]
  exact le_total b.published a.published

lemma sortByDateDesc_sorted (l : List Article) :
    (sortByDateDesc l).Pairwise (fun a b => b.published ≤ a.published) := by
  have h := List.sorted_mergeSort publishedDesc_trans publishedDesc_total l
  exact h.imp (fun hab => by simpa [publishedDesc] using hab)

lemma sortByDateDesc_perm (l : List Article) :
    (sortByDateDesc l).Perm l :=
  List.mergeSort_perm l publishedDesc

lemma take_sorted_bound {l : List Article} {n : Nat}
    (hs : l.Pairwise (fun a b => b.published ≤ a.published))
    {a b : Article} (ha : a ∈ l.take n) (hb : b ∈ l) (hnb : b ∉ l.take n) :
    b.published ≤ a.published := by
  have hb2 : b ∈ l.take n ++ l.drop n := by rw [List.take_append_drop]; exact hb
  have hbdrop : b ∈ l.drop n := by
    rcases List.mem_append.mp hb2 with h | h
    · exact absurd h hnb
    · exact h
  have hp : (l.take n ++ l.drop n).Pairwise (fun a b => b.published ≤ a.published) := by
    rw [List.take_append_drop]; exact hs
  exact (List.pairwise_append.mp hp).2.2 a ha b hbdrop

/-- C3: the merged result of `fetch_all_feeds` is ordered non-increasing by
the `published` instant, newest first, and is a permutation of what the
deduplication pass produced.  Instants past normalization are total, so the
comparison-failure branch of the final sort (which would leave the dedup
order in place) is unreachable in the model. -/
theorem fetch_all_feeds_sorted (feeds : List (List Article)) (cutoff : Int)
    (cap : Nat) :
    (fetch_all_feeds feeds cutoff cap).Pairwise
      (fun a b => b.published ≤ a.published) ∧
    (fetch_all_feeds feeds cutoff cap).Perm
      (remove_duplicates ((feeds.map (process_feed cutoff cap)).flatten)) :=
  ⟨sortByDateDesc_sorted _, sortByDateDesc_perm _⟩

/-- C4: per feed the ranker first keeps exactly the articles with
`published` strictly above the cutoff; when the filtered count stays within
`per_feed_cap` that filtered list is returned untouched, and when it exceeds
the cap exactly `per_feed_cap` articles are kept, all drawn from the filtered
list, ordered newest-first, and every kept article is at least as recent as
every dropped one (the most recent ones are kept).  The fail-open branch for
a raising date comparison is unreachable: instants compare totally. -/
theorem process_feed_spec (cutoff : Int) (cap : Nat) (articles : List Article) :
    (∀ a, a ∈ filter_recent cutoff articles ↔ a ∈ articles ∧ cutoff < a.published) ∧
    ((filter_recent cutoff articles).length ≤ cap →
      process_feed cutoff cap articles = filter_recent cutoff articles) ∧
    (cap < (filter_recent cutoff articles).length →
      (process_feed cutoff cap articles).length = cap ∧
      (∀ a ∈ process_feed cutoff cap articles, a ∈ filter_recent cutoff articles) ∧
      (process_feed cutoff cap articles).Pairwise
        (fun a b => b.published ≤ a.published) ∧
      (∀ a ∈ process_feed cutoff cap articles, ∀ b ∈ filter_recent cutoff articles,
        b ∉ process_feed cutoff cap articles → b.published ≤ a.published)) := by
  refine ⟨fun a => ?_, fun hle => ?_, fun hlt => ?_⟩
  · simp [filter_recent, List.mem_filter]
  · simp only [process_feed, cap_feed]
    rw [if_neg (by omega)]
  · have hproc : process_feed cutoff cap articles =
        (sortByDateDesc (filter_recent cutoff articles)).take cap := by
      simp only [process_feed, cap_feed]
      rw [if_pos hlt]
    have hsorted := sortByDateDesc_sorted (filter_recent cutoff articles)
    have hperm := sortByDateDesc_perm (filter_recent cutoff articles)
    have hlen : (sortByDateDesc (filter_recent cutoff articles)).length =
        (filter_recent cutoff articles).length := hperm.length_eq
    refine ⟨?_, ?_, ?_, ?_⟩
    · rw [hproc, List.length_take, hlen]
      omega
    · intro a ha
      rw [hproc] at ha
      exact hperm.mem_iff.mp (List.mem_of_mem_take ha)
    · rw [hproc]
      exact hsorted.sublist (List.take_sublist _ _)
    · intro a ha b hb hnb
      rw [hproc] at ha hnb
      exact take_sorted_bound hsorted ha (hperm.mem_iff.mpr hb) hnb

/-! ## Lemmas about the extractive fallback -/

lemma intercalate_three (a b c : String) :
    String.intercalate ". " [a, b, c] = a ++ ". " ++ b ++ ". " ++ c := by
  simp [String.intercalate, String.intercalate.go]

lemma eq_empty_of_length_eq_zero {s : String} (h : s.length = 0) : s = "" := by
  cases s with
  | mk data =>
    simp [String.length] at h
    simp [h]

lemma extract_key_sentences_ne_empty {content : String} (h : content ≠ "") :
    extract_key_sentences content 3 ≠ "" := by
  simp only [extract_key_sentences]
  split
  · exact h
  · rw [intercalate_three]
    intro heq
    have hlen := congrArg String.length heq
    simp only [String.length_append] at hlen
    have h2 : (". " : String).length = 2 := by decide
    rw [h2] at hlen
    simp at hlen

/-- C2: the extractive fallback splits on the delimiter `". "`; content with
at most 3 sentences is returned unchanged; content with more sentences yields
exactly the first, middle and last sentence joined by `". "`; content of
exactly 4 sentences yields the first, third (floor-middle) and fourth
sentence joined by `". "`; and the result is non-empty for every non-empty
input. -/
theorem extract_key_sentences_spec (content : String) :
    ((pySplit content ". ").length ≤ 3 → extract_key_sentences content 3 = content) ∧
    (3 < (pySplit content ". ").length →
      extract_key_sentences content 3 =
        (pySplit content ". ").headD "" ++ ". " ++
        (pySplit content ". ").getD ((pySplit content ". ").length / 2) "" ++ ". " ++
        (pySplit content ". ").getLastD "") ∧
    ((pySplit content ". ").length = 4 →
      extract_key_sentences content 3 =
        (pySplit content ". ").getD 0 "" ++ ". " ++
        (pySplit content ". ").getD 2 "" ++ ". " ++
        (pySplit content ". ").getD 3 "") ∧
    (content ≠ "" → extract_key_sentences content 3 ≠ "") := by
  refine ⟨fun hle => ?_, fun hgt => ?_, fun h4 => ?_, fun hne => extract_key_sentences_ne_empty hne⟩
  · unfold extract_key_sentences
    rw [if_pos hle]
  · unfold extract_key_sentences
    rw [if_neg (by omega), intercalate_three]
  · unfold extract_key_sentences
    rw [if_neg (by omega), intercalate_three, h4]
    rcases hsp : pySplit content ". " with _ | ⟨x0, _ | ⟨x1, _ | ⟨x2, _ | ⟨x3, tail⟩⟩⟩⟩ <;>
      rw [hsp] at h4 <;> simp_all

/-! ## Lemmas about `summarize_article` -/

lemma pyTruthy_iff (o : Option String) :
    pyTruthy o = true ↔ ∃ s, o = some s ∧ s ≠ "" := by
  cases o <;> simp [pyTruthy]

lemma pyTruthy_none : pyTruthy none = false := rfl

lemma summarize_article_hf (env : SummarizerEnv) (content title : String)
    (hlen : ¬(content = "" ∨ content.length < 100))
    (hhf : env.hf_client = true)
    (hpf : pyTruthy (env.hf_result content) = true) :
    summarize_article env content title =
      some ⟨env.hf_result content, some .huggingface, content.length,
            match env.hf_result content with | some s => s.length | none => 0⟩ := by
  rw [summarize_article, if_neg hlen]
  simp [hhf, hpf]

lemma summarize_article_openai (env : SummarizerEnv) (content title : String)
    (hlen : ¬(content = "" ∨ content.length < 100))
    (hps1 : ¬(env.hf_client = true ∧ pyTruthy (env.hf_result content) = true))
    (hoa : env.openai_client = true)
    (hpo : pyTruthy (env.openai_result content title) = true) :
    summarize_article env content title =
      some ⟨env.openai_result content title, some .openai, content.length,
            match env.openai_result content title with
            | some s => s.length | none => 0⟩ := by
  rw [summarize_article, if_neg hlen]
  by_cases hhf : env.hf_client = true
  · have hpf : pyTruthy (env.hf_result content) = false := by
      rcases Bool.eq_false_or_eq_true (pyTruthy (env.hf_result content)) with h | h
      · exact absurd ⟨hhf, h⟩ hps1
      · exact h
    simp [hhf, hpf, hoa, hpo]
  · simp [hhf, hoa, hpo, pyTruthy_none]

lemma summarize_article_fallback (env : SummarizerEnv) (content title : String)
    (hlen : ¬(content = "" ∨ content.length < 100))
    (hps1 : ¬(env.hf_client = true ∧ pyTruthy (env.hf_result content) = true))
    (hps2 : ¬(env.openai_client = true ∧
      pyTruthy (env.openai_result content title) = true)) :
    summarize_article env content title =
      some ⟨some (extract_key_sentences content 3), some .extractive,
            content.length, (extract_key_sentences content 3).length⟩ := by
  rw [summarize_article, if_neg hlen]
  have hpf : env.hf_client = true → pyTruthy (env.hf_result content) = false := by
    intro hhf
    rcases Bool.eq_false_or_eq_true (pyTruthy (env.hf_result content)) with h | h
    · exact absurd ⟨hhf, h⟩ hps1
    · exact h
  have hpo : env.openai_client = true →
      pyTruthy (env.openai_result content title) = false := by
    intro hoa
    rcases Bool.eq_false_or_eq_true (pyTruthy (env.openai_result content title))
      with h | h
    · exact absurd ⟨hoa, h⟩ hps2
    · exact h
  by_cases hhf : env.hf_client = true <;> by_cases hoa : env.openai_client = true
  · simp [hhf, hoa, hpf hhf, hpo hoa]
  · simp [hhf, hoa, hpf hhf]
  · simp [hhf, hoa, hpo hoa, pyTruthy_none]
  · simp [hhf, hoa, pyTruthy_none]

/-- C1: `summarize_article` returns `None` exactly on content shorter than
100 characters (in particular on empty or absent content); on content of
length at least 100 it returns a result whose summary is non-empty and whose
method tag names the provider that produced the accepted summary — Hugging
Face only when that client is configured and returned the summary, OpenAI
only when that client is configured, returned the summary, and the Hugging
Face attempt yielded nothing truthy, and the extractive fallback (whose
output is the summary) exactly when neither remote provider produced a
truthy summary. -/
theorem summarize_article_spec (env : SummarizerEnv) (content title : String) :
    (summarize_article env content title = none ↔ content.length < 100) ∧
    (∀ r, summarize_article env content title = some r →
      ∃ s, r.summary = some s ∧ s ≠ "" ∧
        (r.method = some .huggingface →
          env.hf_client = true ∧ env.hf_result content = some s) ∧
        (r.method = some .openai →
          env.openai_client = true ∧ env.openai_result content title = some s ∧
          ¬(env.hf_client = true ∧ pyTruthy (env.hf_result content) = true)) ∧
        (r.method = some .extractive →
          s = extract_key_sentences content 3 ∧
          ¬(env.hf_client = true ∧ pyTruthy (env.hf_result content) = true) ∧
          ¬(env.openai_client = true ∧
            pyTruthy (env.openai_result content title) = true)) ∧
        (r.method = some .huggingface ∨ r.method = some .openai ∨
          r.method = some .extractive)) := by
  constructor
  · constructor
    · intro h
      by_cases hc : content = "" ∨ content.length < 100
      · rcases hc with hc | hc
        · rw [hc]; simp
        · exact hc
      · rw [summarize_article, if_neg hc] at h
        simp at h
    · intro h
      rw [summarize_article, if_pos (Or.inr h)]
  · intro r hr
    have hc : ¬(content = "" ∨ content.length < 100) := by
      intro hc
      rw [summarize_article, if_pos hc] at hr
      exact Option.noConfusion hr
    have hcne : content ≠ "" := fun h => hc (Or.inl h)
    by_cases hA : env.hf_client = true ∧ pyTruthy (env.hf_result content) = true
    · obtain ⟨hhf, hpt1⟩ := hA
      obtain ⟨s, hsome, hsne⟩ := (pyTruthy_iff _).mp hpt1
      rw [summarize_article_hf env content title hc hhf hpt1] at hr
      obtain req := Option.some.inj hr
      refine ⟨s, ?_, hsne, fun _ => ⟨hhf, hsome⟩, ?_, ?_, Or.inl ?_⟩
      · rw [← req]; simp [hsome]
      · intro h; rw [← req] at h; simp at h
      · intro h; rw [← req] at h; simp at h
      · rw [← req]
    · by_cases hB : env.openai_client = true ∧
          pyTruthy (env.openai_result content title) = true
      · obtain ⟨hoa, hpt2⟩ := hB
        obtain ⟨s, hsome, hsne⟩ := (pyTruthy_iff _).mp hpt2
        rw [summarize_article_openai env content title hc hA hoa hpt2] at hr
        obtain req := Option.some.inj hr
        refine ⟨s, ?_, hsne, ?_, fun _ => ⟨hoa, hsome, hA⟩, ?_, Or.inr (Or.inl ?_)⟩
        · rw [← req]; simp [hsome]
        · intro h; rw [← req] at h; simp at h
        · intro h; rw [← req] at h; simp at h
        · rw [← req]
      · rw [summarize_article_fallback env content title hc hA hB] at hr
        obtain req := Option.some.inj hr
        refine ⟨extract_key_sentences content 3, ?_,
          extract_key_sentences_ne_empty hcne, ?_, ?_, fun _ => ⟨rfl, hA, hB⟩,
          Or.inr (Or.inr ?_)⟩
        · rw [← req]
        · intro h; rw [← req] at h; simp at h
        · intro h; rw [← req] at h; simp at h
        · rw [← req]

/-! ## Date normalization claims -/

/-- C7: `parse_date` is total by construction and always yields a
timezone-aware UTC instant (`tz = some 0`), as does `normalize_datetime`:
naive inputs keep their wall clock and are assumed UTC, aware inputs are
converted to UTC by subtracting their offset; an empty date string yields the
current UTC time, the first successful parser in the five-step chain is
normalized and returned, and when every parser fails the current UTC time is
returned. -/
theorem parse_date_spec (now : Int) (p1 p2 p3 p4 p5 : String → Option PyDatetime)
    (date_str : String) :
    (parse_date now p1 p2 p3 p4 p5 date_str).tz = some 0 ∧
    (∀ o, (normalize_datetime now o).tz = some 0) ∧
    (∀ w, normalize_datetime now (some ⟨w, none⟩) = ⟨w, some 0⟩) ∧
    (∀ w off, normalize_datetime now (some ⟨w, some off⟩) = ⟨w - off, some 0⟩) ∧
    (date_str = "" → parse_date now p1 p2 p3 p4 p5 date_str = ⟨now, some 0⟩) ∧
    (∀ d, date_str ≠ "" → p1 date_str = some d →
      parse_date now p1 p2 p3 p4 p5 date_str = normalize_datetime now (some d)) ∧
    (date_str ≠ "" → p1 date_str = none → p2 date_str = none →
      p3 date_str = none → p4 date_str = none → p5 date_str = none →
      parse_date now p1 p2 p3 p4 p5 date_str = ⟨now, some 0⟩) := by
  have hnorm : ∀ o, (normalize_datetime now o).tz = some 0 := by
    intro o
    rcases o with _ | ⟨w, _ | off⟩ <;> rfl
  refine ⟨?_, hnorm, fun w => rfl, fun w off => rfl, ?_, ?_, ?_⟩
  · rw [parse_date]
    by_cases h0 : date_str = ""
    · rw [if_pos h0]
    · rw [if_neg h0]
      cases p1 date_str with
      | some d => exact hnorm _
      | none =>
        cases p2 date_str with
        | some d => exact hnorm _
        | none =>
          cases p3 date_str with
          | some d => exact hnorm _
          | none =>
            cases p4 date_str with
            | some d => exact hnorm _
            | none =>
              cases p5 date_str with
              | some d => exact hnorm _
              | none => rfl
  · intro h0
    rw [parse_date, if_pos h0]
  · intro d h0 h1
    rw [parse_date, if_neg h0, h1]
  · intro h0 h1 h2 h3 h4 h5
    rw [parse_date, if_neg h0, h1, h2, h3, h4, h5]

/-! ## Content extraction claims -/

/-- C8: `extract_content` returns either `None` or a string strictly longer
than 200 characters; the BeautifulSoup strategy itself only yields strings
longer than 200 characters; and when the newspaper strategy only offers text
of at most 200 characters and every selector text and the paragraph text of
the fetched page are at most 200 characters (or the page fetch fails), the
result is `None` rather than an error. -/
theorem extract_content_spec (w : FetchWorld) (url : String) :
    (∀ s, extract_content w url = some s → 200 < s.length) ∧
    (∀ s, extract_with_bs4 w url = some s → 200 < s.length) ∧
    ((∀ s, extract_with_newspaper w url = some s → s.length ≤ 200) →
     (∀ page, w.bs4_page url = some page →
       (∀ sel, sel ∈ content_selectors → ∀ t, page.selText sel = some t →
         t.length ≤ 200) ∧
       page.paragraphs.length ≤ 200) →
     extract_content w url = none) := by
  have hbs4 : ∀ s, extract_with_bs4 w url = some s → 200 < s.length := by
    intro s hs
    unfold extract_with_bs4 at hs
    cases hpage : w.bs4_page url with
    | none => rw [hpage] at hs; exact absurd hs (by simp)
    | some page =>
      rw [hpage] at hs
      dsimp only at hs
      cases hfind : content_selectors.findSome?
          (fun sel =>
            match page.selText sel with
            | some text => if 200 < text.length then some text else none
            | none => none) with
      | some t =>
        rw [hfind] at hs
        obtain rfl := Option.some.inj hs
        obtain ⟨sel, hmem, hf⟩ := List.exists_of_findSome?_eq_some hfind
        have hf2 : (match page.selText sel with
            | some text => if 200 < text.length then some text else none
            | none => none) = some t := hf
        cases hsel2 : page.selText sel with
        | none => rw [hsel2] at hf2; exact absurd hf2 (by simp)
        | some text =>
          rw [hsel2] at hf2
          dsimp only at hf2
          by_cases hl : 200 < text.length
          · rw [if_pos hl] at hf2
            obtain rfl := Option.some.inj hf2
            exact hl
          · rw [if_neg hl] at hf2
            exact absurd hf2 (by simp)
      | none =>
        rw [hfind] at hs
        dsimp only at hs
        by_cases hl : 200 < page.paragraphs.length
        · rw [if_pos hl] at hs
          obtain rfl := Option.some.inj hs
          exact hl
        · rw [if_neg hl] at hs
          exact absurd hs (by simp)
  refine ⟨?_, hbs4, ?_⟩
  · intro s hs
    simp only [extract_content] at hs
    by_cases h1 : pyTruthy (extract_with_newspaper w url) = true ∧
        200 < ((extract_with_newspaper w url).getD "").length
    · rw [if_pos h1] at hs
      rw [hs] at h1
      simpa using h1.2
    · rw [if_neg h1] at hs
      by_cases h2 : pyTruthy (extract_with_bs4 w url) = true ∧
          200 < ((extract_with_bs4 w url).getD "").length
      · rw [if_pos h2] at hs
        exact hbs4 s hs
      · rw [if_neg h2] at hs
        exact absurd hs (by simp)
  · intro hnp hpg
    have hb : extract_with_bs4 w url = none := by
      unfold extract_with_bs4
      cases hpage : w.bs4_page url with
      | none => rfl
      | some page =>
        obtain ⟨hsel, hpar⟩ := hpg page hpage
        have hfind : content_selectors.findSome?
            (fun sel =>
              match page.selText sel with
              | some text => if 200 < text.length then some text else none
              | none => none) = none := by
          rw [List.findSome?_eq_none_iff]
          intro sel hmem
          cases hsel2 : page.selText sel with
          | none => simp
          | some text =>
            have hle := hsel sel hmem text hsel2
            simp only []
            rw [if_neg (by omega)]
        dsimp only
        rw [hfind, if_neg (by omega)]
    have h1 : ¬(pyTruthy (extract_with_newspaper w url) = true ∧
        200 < ((extract_with_newspaper w url).getD "").length) := by
      rintro ⟨ht, hl⟩
      obtain ⟨t, htt, -⟩ := (pyTruthy_iff _).mp ht
      rw [htt] at hl
      simp only [Option.getD_some] at hl
      have := hnp t htt
      omega
    simp only [extract_content]
    rw [if_neg h1, hb]
    simp [pyTruthy_none]

/-! ## Feed catalog round-trip claims -/

/-- A feed dict carrying only a `url` key, as a JSON catalog
`{"feeds": [{"url": ...}]}` legally produces via `load_from_json`. -/
def feedCex : Feed :=
  ⟨"http://example.com/feed", none, none, none, none, none⟩

/-- C9 counterexample: exporting and reloading a catalog whose single feed
carries only a `url` key does not reproduce the original descriptor — the
reload carries `title`, `category` and `description` keys filled with
defaults that the original lacked. -/
theorem export_roundtrip_cex : export_then_load [feedCex] ≠ [feedCex] := by
  decide

lemma map_eq_self_pointwise {α : Type} (g : α → α) :
    ∀ l : List α, l.map g = l → ∀ x ∈ l, g x = x := by
  intro l
  induction l with
  | nil => intro _ x hx; simp at hx
  | cons a l ih =>
    intro h x hx
    simp only [List.map_cons, List.cons.injEq] at h
    rcases List.mem_cons.mp hx with rfl | hx2
    · exact h.1
    · exact ih h.2 x hx2

/-- C9 (amended): serializing and reloading normalizes each descriptor —
`url` is kept, `title` and `description` default to `""`, `category` defaults
to `"general"`, and the `html_url`/`language` keys of OPML-loaded feeds are
dropped.  The round trip is idempotent, and it reproduces the original list
exactly when (if and only if) every descriptor already carries just the four
interchange keys. -/
theorem export_roundtrip_normalized (feeds : List Feed) :
    export_then_load (export_then_load feeds) = export_then_load feeds ∧
    (export_then_load feeds = feeds ↔
      ∀ f ∈ feeds, f.title.isSome ∧ f.category.isSome ∧ f.description.isSome ∧
        f.html_url = none ∧ f.language = none) := by
  constructor
  · simp only [export_then_load, List.map_map]
    apply List.map_congr_left
    intro f _
    cases f
    simp [exportFeed, Function.comp]
  · constructor
    · intro h f hfmem
      have hf := map_eq_self_pointwise exportFeed feeds h f hfmem
      cases f with
      | mk url t c d hu lg =>
        simp only [exportFeed, Feed.mk.injEq, true_and] at hf
        obtain ⟨h1, h2, h3, h4, h5⟩ := hf
        exact ⟨by rw [← h1]; rfl, by rw [← h2]; rfl, by rw [← h3]; rfl,
          h4.symm, h5.symm⟩
    · intro h
      simp only [export_then_load]
      conv_rhs => rw [← List.map_id feeds]
      apply List.map_congr_left
      intro f hf
      obtain ⟨ht, hc, hd, hh, hl⟩ := h f hf
      obtain ⟨t, ht2⟩ := Option.isSome_iff_exists.mp ht
      obtain ⟨c, hc2⟩ := Option.isSome_iff_exists.mp hc
      obtain ⟨d, hd2⟩ := Option.isSome_iff_exists.mp hd
      cases f
      simp_all [exportFeed]

/-! ## Concrete witnesses -/

/-- A summarizer with neither remote client configured. -/
def envW : SummarizerEnv := ⟨false, fun _ => none, false, fun _ _ => none⟩

/-- A 120-character content string. -/
def contentW : String := String.mk (List.replicate 120 'a')

set_option maxRecDepth 8000 in
theorem summarize_article_spec_witness :
    ∃ s, (⟨some contentW, some SummaryMethod.extractive, 120, 120⟩ :
      SummaryResult).summary = some s ∧ s ≠ "" := by
  obtain ⟨s, hs, hsne, -⟩ := (summarize_article_spec envW contentW "").2
    ⟨some contentW, some SummaryMethod.extractive, 120, 120⟩ (by decide)
  exact ⟨s, hs, hsne⟩

theorem extract_key_sentences_spec_witness :
    extract_key_sentences "a. b. c. d" 3 =
      (pySplit "a. b. c. d" ". ").getD 0 "" ++ ". " ++
      (pySplit "a. b. c. d" ". ").getD 2 "" ++ ". " ++
      (pySplit "a. b. c. d" ". ").getD 3 "" :=
  (extract_key_sentences_spec "a. b. c. d").2.2.1 (by decide)

/-- A feed of 12 articles published at instants 1..12, all past cutoff 0. -/
def feedW : List Article :=
  (List.range 12).map (fun i => ⟨"t", "l", "", (i : Int) + 1, "s", "", "g", "", "", "", []⟩)

theorem process_feed_spec_witness : (process_feed 0 5 feedW).length = 5 :=
  ((process_feed_spec 0 5 feedW).2.2 (by decide)).1

/-- Two articles sharing a `link` but carrying distinct non-empty `guid`s. -/
def artW1 : Article := ⟨"w1", "samelink", "", 1, "", "", "guid-1", "", "", "", []⟩

def artW2 : Article := ⟨"w2", "samelink", "", 2, "", "", "guid-2", "", "", "", []⟩

theorem remove_duplicates_key_spec_witness :
    remove_duplicates [artW1, artW2] = [artW1, artW2] :=
  (remove_duplicates_key_spec [artW1, artW2]).2.2.2.2.2 artW1 artW2
    (by decide) (by decide) (by decide)

/-- A parser that always fails (its `except` branch always fires). -/
def parserNone : String → Option PyDatetime := fun _ => none

theorem parse_date_spec_witness :
    parse_date 1700000000 parserNone parserNone parserNone parserNone parserNone
      "not a date" = ⟨1700000000, some 0⟩ :=
  (parse_date_spec 1700000000 parserNone parserNone parserNone parserNone
    parserNone "not a date").2.2.2.2.2.2 (by decide) rfl rfl rfl rfl rfl

/-- A world where every fetch fails. -/
def worldW : FetchWorld := ⟨fun _ => none, fun _ => none⟩

theorem extract_content_spec_witness :
    extract_content worldW "http://example.com" = none := by
  refine (extract_content_spec worldW "http://example.com").2.2 ?_ ?_
  · intro s hs
    simp [extract_with_newspaper, worldW] at hs
  · intro page hpage
    simp [worldW] at hpage

/-- A feed already carrying exactly the four interchange keys. -/
def feedWitness : Feed :=
  ⟨"http://example.com/feed", some "Title", some "news", some "", none, none⟩

theorem export_roundtrip_normalized_witness :
    export_then_load [feedWitness] = [feedWitness] :=
  (export_roundtrip_normalized [feedWitness]).2.mpr (by decide)

end RSSPipeline
